import Mathlib

/-!
Verification of the reclutch event-distribution core.

The `event` crate of this repository provides:
* an append-only, garbage-collected, multi-listener event log
  (`RawEventQueue`, wrapped by `nonrc::Queue` / `nonrc::Listener`),
* a single-slot bidirectional channel (`bidir_single::Queue` /
  `bidir_single::Secondary`),
* a merge combinator over several listener handles.

This file gives a shallow embedding of those components and proves the
documented contracts about them.  Machine indices are modelled as `Nat`
(the cursor arithmetic never overflows in the model), the listener
registry as an association list from key to cursor, and each stateful
operation as an explicit state-passing function.
-/

namespace Reclutch

/-- Modelled from the spec: the core `RawEventQueue` lives in `intern.rs`,
which is not among the provided sources (only its wrapper `nonrc.rs`, its
callers and its benches are).  Fields follow spec section 3: `items` is the
retained buffer, `base_index` the global index of `items[0]`, `cursors` the
registry mapping listener keys to absolute next-unread indices, and
`next_key` a monotonically increasing key counter. -/
structure RawEventQueue (T : Type) where
  items : List T
  base_index : Nat
  cursors : List (Nat × Nat)
  next_key : Nat
deriving DecidableEq

namespace RawEventQueue

variable {T : Type}

/-- The empty queue (`RawEventQueue::new`). -/
def new : RawEventQueue T := ⟨[], 0, [], 0⟩

/-- The current write position: `base_index + len(items)`. -/
def writePos (q : RawEventQueue T) : Nat := q.base_index + q.items.length

/-- Minimum of the cursor values of a registry, `none` when empty. -/
def minCursor : List (Nat × Nat) → Option Nat
  | [] => none
  | p :: rest =>
      some (match minCursor rest with
        | none => p.2
        | some m => min p.2 m)

/-- Modelled from the spec: garbage collection (spec section 4.1).  With a
non-empty registry, let `m` be the minimum cursor; drop
`items[0 .. m - base_index)` and set `base_index = m`.  With an empty
registry nothing is trimmed. -/
def gc (q : RawEventQueue T) : RawEventQueue T :=
  match minCursor q.cursors with
  | none => q
  | some m => { q with items := q.items.drop (m - q.base_index), base_index := m }

/-- Modelled from the spec: `push` appends to `items` and never triggers
garbage collection. -/
def push (q : RawEventQueue T) (e : T) : RawEventQueue T :=
  { q with items := q.items ++ [e] }

/-- Modelled from the spec: `create_listener` inserts a fresh key with its
cursor at the current write position (spec invariant 3); garbage collection
runs after every cursor mutation (spec section 4.1). -/
def create_listener (q : RawEventQueue T) : Nat × RawEventQueue T :=
  (q.next_key,
    gc { q with
          cursors := (q.next_key, q.writePos) :: q.cursors,
          next_key := q.next_key + 1 })

/-- Modelled from the spec: `remove_listener` deletes the cursor entry if
present (a missing key is a silent no-op) and is always followed by garbage
collection. -/
def remove_listener (q : RawEventQueue T) (key : Nat) : RawEventQueue T :=
  gc { q with cursors := q.cursors.filter (fun p => p.1 != key) }

/-- Overwrite the cursor stored under `key` with `v`. -/
def cursorSet (cs : List (Nat × Nat)) (key v : Nat) : List (Nat × Nat) :=
  cs.map (fun p => if p.1 = key then (p.1, v) else p)

/-- Modelled from the spec: `pull` returns the slice of items between the
cursor and the current write position in push order, advances the cursor to
the write position, and is always followed by garbage collection; an
unknown key yields an empty result. -/
def pull (q : RawEventQueue T) (key : Nat) : List T × RawEventQueue T :=
  match q.cursors.lookup key with
  | none => ([], gc q)
  | some c =>
      (q.items.drop (c - q.base_index),
        gc { q with cursors := cursorSet q.cursors key q.writePos })

/-- Modelled from the spec: `pull_n` returns at most `n` of the earliest
unread items and advances the cursor by exactly the number returned;
`n == 0` is a guaranteed no-op that does not touch state. -/
def pull_n (q : RawEventQueue T) (key : Nat) (n : Nat) : List T × RawEventQueue T :=
  if n = 0 then ([], q)
  else
    match q.cursors.lookup key with
    | none => ([], gc q)
    | some c =>
        let res := (q.items.drop (c - q.base_index)).take n
        (res, gc { q with cursors := cursorSet q.cursors key (c + res.length) })

end RawEventQueue

/-- One abstract operation on an event queue, used to quantify over every
reachable state. -/
inductive Op (T : Type) where
  | push : T → Op T
  | listen : Op T
  | remove : Nat → Op T
  | pull : Nat → Op T
  | pulln : Nat → Nat → Op T
deriving DecidableEq

open RawEventQueue in
/-- Apply one operation to a queue, keeping only the state. -/
def applyOp {T : Type} (q : RawEventQueue T) : Op T → RawEventQueue T
  | .push e => q.push e
  | .listen => (q.create_listener).2
  | .remove k => q.remove_listener k
  | .pull k => (q.pull k).2
  | .pulln k n => (q.pull_n k n).2

/-- The state reached from the empty queue by a sequence of operations. -/
def run {T : Type} (ops : List (Op T)) : RawEventQueue T :=
  ops.foldl applyOp RawEventQueue.new

namespace RawEventQueue

variable {T : Type}

/-- The structural invariant maintained by every operation: every cursor
lies between `base_index` and the write position, and (spec invariant 2)
with a non-empty registry the minimum cursor equals `base_index`. -/
def WF (q : RawEventQueue T) : Prop :=
  (∀ p ∈ q.cursors, q.base_index ≤ p.2 ∧ p.2 ≤ q.writePos)
  ∧ (q.cursors ≠ [] → minCursor q.cursors = some q.base_index)

theorem minCursor_eq_none {cs : List (Nat × Nat)} : minCursor cs = none ↔ cs = [] := by
  cases cs <;> simp [minCursor]

theorem minCursor_le {cs : List (Nat × Nat)} {m : Nat} (h : minCursor cs = some m) :
    ∀ p ∈ cs, m ≤ p.2 := by
  induction cs generalizing m with
  | nil => simp
  | cons p rest ih =>
    intro q hq
    rcases List.mem_cons.mp hq with hq | hq
    · subst hq
      cases hr : minCursor rest with
      | none => simp [minCursor, hr] at h; omega
      | some m' => simp [minCursor, hr] at h; omega
    · cases hr : minCursor rest with
      | none =>
        have : rest = [] := minCursor_eq_none.mp hr
        subst this; simp at hq
      | some m' =>
        have hm' := ih hr q hq
        simp [minCursor, hr] at h
        omega

theorem minCursor_mem {cs : List (Nat × Nat)} {m : Nat} (h : minCursor cs = some m) :
    ∃ p ∈ cs, p.2 = m := by
  induction cs generalizing m with
  | nil => simp [minCursor] at h
  | cons p rest ih =>
    cases hr : minCursor rest with
    | none =>
      simp [minCursor, hr] at h
      exact ⟨p, List.mem_cons_self p rest, h⟩
    | some m' =>
      simp [minCursor, hr] at h
      rcases Nat.le_total p.2 m' with hc | hc
      · refine ⟨p, List.mem_cons_self p rest, ?_⟩
        omega
      · obtain ⟨q, hq, hq2⟩ := ih hr
        refine ⟨q, List.mem_cons_of_mem p hq, ?_⟩
        omega

@[simp] theorem gc_cursors (q : RawEventQueue T) : (gc q).cursors = q.cursors := by
  rcases h : minCursor q.cursors with - | m <;> simp [gc, h]

@[simp] theorem gc_next_key (q : RawEventQueue T) : (gc q).next_key = q.next_key := by
  rcases h : minCursor q.cursors with - | m <;> simp [gc, h]

theorem gc_base_index {q : RawEventQueue T} {m : Nat} (h : minCursor q.cursors = some m) :
    (gc q).base_index = m := by
  simp [gc, h]

theorem gc_writePos (q : RawEventQueue T)
    (hb : ∀ p ∈ q.cursors, q.base_index ≤ p.2 ∧ p.2 ≤ q.writePos) :
    (gc q).writePos = q.writePos := by
  rcases h : minCursor q.cursors with - | m
  · simp [gc, h]
  · obtain ⟨p, hp, hpm⟩ := minCursor_mem h
    have h1 := hb p hp
    simp [gc, h, writePos] at h1 ⊢
    omega

theorem gc_WF (q : RawEventQueue T)
    (hb : ∀ p ∈ q.cursors, q.base_index ≤ p.2 ∧ p.2 ≤ q.writePos) :
    WF (gc q) := by
  rcases h : minCursor q.cursors with - | m
  · have hcs : q.cursors = [] := minCursor_eq_none.mp h
    constructor
    · intro p hp
      rw [gc_cursors, hcs] at hp
      simp at hp
    · intro hne
      rw [gc_cursors, hcs] at hne
      simp at hne
  · have hle := minCursor_le h
    obtain ⟨p0, hp0, hm0⟩ := minCursor_mem h
    have hb0 := hb p0 hp0
    have hwp := gc_writePos q hb
    constructor
    · intro p hp
      rw [gc_cursors] at hp
      have h1 := hb p hp
      have h2 := hle p hp
      constructor
      · rw [gc_base_index h]; exact h2
      · rw [hwp]; exact h1.2
    · intro _
      rw [gc_cursors, h, gc_base_index h]

theorem gc_id (q : RawEventQueue T) (h : WF q) : gc q = q := by
  rcases hm : minCursor q.cursors with - | m
  · simp [gc, hm]
  · have hne : q.cursors ≠ [] := by
      intro he
      rw [he] at hm
      simp [minCursor] at hm
    have hbase := h.2 hne
    rw [hm] at hbase
    have hmb : m = q.base_index := by injection hbase
    subst hmb
    simp [gc, hm]

theorem WF_new : WF (new : RawEventQueue T) := by
  constructor
  · intro p hp
    simp [new] at hp
  · intro hne
    simp [new] at hne

theorem WF_push (q : RawEventQueue T) (h : WF q) (e : T) : WF (q.push e) := by
  obtain ⟨hb, hmin⟩ := h
  constructor
  · intro p hp
    simp only [push] at hp
    have := hb p hp
    simp [push, writePos] at this ⊢
    omega
  · intro hne
    simp only [push] at hne ⊢
    exact hmin hne

theorem bounds_cursorSet {q : RawEventQueue T}
    (hb : ∀ p ∈ q.cursors, q.base_index ≤ p.2 ∧ p.2 ≤ q.writePos) (key v : Nat)
    (hv : q.base_index ≤ v ∧ v ≤ q.writePos) :
    ∀ p ∈ cursorSet q.cursors key v, q.base_index ≤ p.2 ∧ p.2 ≤ q.writePos := by
  intro p hp
  obtain ⟨a, ha, hfa⟩ := List.mem_map.mp hp
  by_cases hk : a.1 = key
  · simp [hk] at hfa
    rw [← hfa]
    exact hv
  · simp [hk] at hfa
    rw [← hfa]
    exact hb a ha

theorem lookup_mem {cs : List (Nat × Nat)} {key c : Nat}
    (h : cs.lookup key = some c) : (key, c) ∈ cs := by
  obtain ⟨l₁, l₂, hsplit, -⟩ := List.lookup_eq_some_iff.mp h
  rw [hsplit]
  simp

theorem lookup_cursorSet {cs : List (Nat × Nat)} {key c : Nat}
    (h : cs.lookup key = some c) (v : Nat) :
    (cursorSet cs key v).lookup key = some v := by
  induction cs generalizing c with
  | nil => simp at h
  | cons p rest ih =>
    by_cases hk : p.1 = key
    · simp [cursorSet, hk, List.lookup_cons]
    · have hkb : (key == p.1) = false := by
        simp
        exact fun he => hk he.symm
      rw [List.lookup_cons, hkb] at h
      simp only [cursorSet, List.map_cons, if_neg hk]
      rw [List.lookup_cons, hkb]
      exact ih h

theorem WF_create (q : RawEventQueue T) (h : WF q) : WF (q.create_listener).2 := by
  apply gc_WF
  intro p hp
  rcases List.mem_cons.mp hp with hp | hp
  · subst hp
    exact ⟨Nat.le_add_right _ _, Nat.le_refl _⟩
  · exact h.1 p hp

theorem WF_remove (q : RawEventQueue T) (h : WF q) (key : Nat) :
    WF (q.remove_listener key) := by
  apply gc_WF
  intro p hp
  exact h.1 p (List.mem_of_mem_filter hp)

theorem WF_pull (q : RawEventQueue T) (h : WF q) (key : Nat) : WF (q.pull key).2 := by
  rcases hl : q.cursors.lookup key with - | c
  · simp only [pull, hl]
    exact gc_WF q h.1
  · simp only [pull, hl]
    apply gc_WF
    exact bounds_cursorSet h.1 key q.writePos ⟨Nat.le_add_right _ _, Nat.le_refl _⟩

theorem WF_pull_n (q : RawEventQueue T) (h : WF q) (key n : Nat) :
    WF (q.pull_n key n).2 := by
  by_cases hn : n = 0
  · simp only [pull_n, if_pos hn]
    exact h
  · rcases hl : q.cursors.lookup key with - | c
    · simp only [pull_n, if_neg hn, hl]
      exact gc_WF q h.1
    · have hc := h.1 _ (lookup_mem hl)
      simp only [pull_n, if_neg hn, hl]
      apply gc_WF
      apply bounds_cursorSet h.1
      simp only [writePos] at hc ⊢
      have htk : ((q.items.drop (c - q.base_index)).take n).length
          ≤ (q.items.drop (c - q.base_index)).length := List.length_take_le' _ _
      simp only [List.length_drop] at htk
      omega

theorem WF_applyOp (q : RawEventQueue T) (h : WF q) (op : Op T) : WF (applyOp q op) := by
  cases op with
  | push e => exact WF_push q h e
  | listen => exact WF_create q h
  | remove k => exact WF_remove q h k
  | pull k => exact WF_pull q h k
  | pulln k n => exact WF_pull_n q h k n

theorem WF_foldl (ops : List (Op T)) :
    ∀ q : RawEventQueue T, WF q → WF (ops.foldl applyOp q) := by
  induction ops with
  | nil => exact fun q h => h
  | cons op rest ih => exact fun q h => ih _ (WF_applyOp q h op)

theorem run_WF (ops : List (Op T)) : WF (run ops) := WF_foldl ops new WF_new

theorem foldl_push_fields (es : List T) : ∀ q : RawEventQueue T,
    (es.foldl push q).items = q.items ++ es
    ∧ (es.foldl push q).base_index = q.base_index
    ∧ (es.foldl push q).cursors = q.cursors := by
  induction es with
  | nil => intro q; simp
  | cons e rest ih =>
    intro q
    obtain ⟨h1, h2, h3⟩ := ih (q.push e)
    rw [List.foldl_cons]
    refine ⟨?_, ?_, ?_⟩
    · rw [h1]; simp [push]
    · rw [h2]; rfl
    · rw [h3]; rfl

theorem run_pushes (n : Nat) : ∀ q : RawEventQueue Nat,
    ((List.replicate n (Op.push (0 : Nat))).foldl applyOp q).items.length
        = q.items.length + n
    ∧ ((List.replicate n (Op.push (0 : Nat))).foldl applyOp q).cursors = q.cursors := by
  induction n with
  | zero => intro q; simp
  | succ n ih =>
    intro q
    rw [List.replicate_succ, List.foldl_cons]
    obtain ⟨h1, h2⟩ := ih (applyOp q (Op.push 0))
    refine ⟨?_, ?_⟩
    · rw [h1]; simp [applyOp, push]; omega
    · rw [h2]; rfl

theorem create_listener_facts (q : RawEventQueue T) (h : WF q) :
    (q.create_listener).2.cursors = (q.next_key, q.writePos) :: q.cursors
    ∧ (q.create_listener).2.writePos = q.writePos := by
  constructor
  · show (gc _).cursors = _
    rw [gc_cursors]
  · exact gc_writePos _ (fun p hp => by
      rcases List.mem_cons.mp hp with hp | hp
      · subst hp; exact ⟨Nat.le_add_right _ _, Nat.le_refl _⟩
      · exact h.1 p hp)

theorem pull_cursor_after (s : RawEventQueue T) (key c : Nat) (hw : WF s)
    (h : s.cursors.lookup key = some c) :
    (s.pull key).2.cursors.lookup key = some ((s.pull key).2.writePos) := by
  have hb : ∀ p ∈ cursorSet s.cursors key s.writePos,
      s.base_index ≤ p.2 ∧ p.2 ≤ s.writePos :=
    bounds_cursorSet hw.1 key s.writePos ⟨Nat.le_add_right _ _, Nat.le_refl _⟩
  have hwp : (gc { s with cursors := cursorSet s.cursors key s.writePos }).writePos
      = s.writePos := gc_writePos _ hb
  simp only [pull, h]
  rw [gc_cursors, lookup_cursorSet h s.writePos, hwp]

theorem pull_at_top_empty (s : RawEventQueue T) (key : Nat)
    (h : s.cursors.lookup key = some s.writePos) :
    (s.pull key).1 = [] := by
  simp only [pull, h]
  have : s.writePos - s.base_index = s.items.length := by
    simp [writePos]
  rw [this, List.drop_length]

theorem pull_iter_empty (key : Nat) (m : Nat) :
    ∀ s : RawEventQueue T, WF s → s.cursors.lookup key = some s.writePos →
    ((((fun t : RawEventQueue T => (t.pull key).2)^[m]) s).pull key).1 = [] := by
  induction m with
  | zero =>
    intro s _ h
    simpa using pull_at_top_empty s key h
  | succ m ih =>
    intro s hw h
    rw [Function.iterate_succ_apply]
    exact ih _ (WF_pull s hw key) (pull_cursor_after s key s.writePos hw h)

theorem filter_of_lookup_none {cs : List (Nat × Nat)} {key : Nat}
    (h : cs.lookup key = none) : cs.filter (fun p => p.1 != key) = cs := by
  rw [List.lookup_eq_none_iff] at h
  apply List.filter_eq_self.mpr
  intro p hp
  have hne := h p hp
  simp at hne ⊢
  exact fun he => hne he.symm

end RawEventQueue

/-- Claim C1: for every EventLog state reachable by any sequence of push,
create_listener, remove_listener and pull operations, whenever at least one
listener exists the number of retained items equals the write position minus
the minimum active cursor; with zero listeners no trimming is forced and the
retained count may equal the total pushed count. -/
theorem C1_reclamation_invariant :
    (∀ (ops : List (Op Nat)) (m : Nat),
        RawEventQueue.minCursor (run ops).cursors = some m →
        (run ops).items.length = (run ops).writePos - m)
    ∧ ∀ n : Nat,
        (run (List.replicate n (Op.push (0 : Nat)))).cursors = []
        ∧ (run (List.replicate n (Op.push (0 : Nat)))).items.length = n := by
  constructor
  · intro ops m hm
    have hw := RawEventQueue.run_WF ops
    have hne : (run ops).cursors ≠ [] := by
      intro he
      rw [he] at hm
      simp [RawEventQueue.minCursor] at hm
    have hbase := hw.2 hne
    rw [hm] at hbase
    have hmb : m = (run ops).base_index := by injection hbase
    subst hmb
    simp [RawEventQueue.writePos]
  · intro n
    obtain ⟨h1, h2⟩ := RawEventQueue.run_pushes n RawEventQueue.new
    exact ⟨h2, by rw [run, h1]; simp [RawEventQueue.new]⟩

/-- Witness for C1 at a concrete input: one listener then one push. -/
theorem C1_reclamation_invariant_w :
    RawEventQueue.minCursor (run [Op.listen, Op.push (5 : Nat)]).cursors = some 0
    ∧ (run [Op.listen, Op.push (5 : Nat)]).items.length
        = (run [Op.listen, Op.push (5 : Nat)]).writePos - 0 :=
  ⟨by decide, C1_reclamation_invariant.1 [Op.listen, Op.push 5] 0 (by decide)⟩

/-- Claim C2: for every prior operation sequence, a listener created at that
point has its cursor at the current write position, and a pull performed
after any further list of pushes `es` returns exactly `es` — in particular
the first pull never contains events pushed before the listener's creation. -/
theorem C2_no_history_leak (ops : List (Op Nat)) (es : List Nat) :
    ((run ops).create_listener).2.cursors.lookup ((run ops).create_listener).1
        = some (((run ops).create_listener).2.writePos)
    ∧ (RawEventQueue.pull (es.foldl RawEventQueue.push ((run ops).create_listener).2)
        ((run ops).create_listener).1).1 = es := by
  have hw := RawEventQueue.run_WF ops
  obtain ⟨hcs, hwp⟩ := RawEventQueue.create_listener_facts (run ops) hw
  have hlk : ((run ops).create_listener).2.cursors.lookup ((run ops).create_listener).1
      = some ((run ops).writePos) := by
    rw [hcs]
    exact List.lookup_cons_self
  refine ⟨by rw [hlk, hwp], ?_⟩
  obtain ⟨hit, hbase, hcur⟩ :=
    RawEventQueue.foldl_push_fields es ((run ops).create_listener).2
  have hlk2 : (es.foldl RawEventQueue.push ((run ops).create_listener).2).cursors.lookup
      ((run ops).create_listener).1 = some ((run ops).writePos) := by
    rw [hcur]; exact hlk
  simp only [RawEventQueue.pull, hlk2]
  rw [hit, hbase]
  have hlen : (run ops).writePos - ((run ops).create_listener).2.base_index
      = ((run ops).create_listener).2.items.length := by
    have : (run ops).writePos = ((run ops).create_listener).2.base_index
        + ((run ops).create_listener).2.items.length := by
      rw [← hwp]; rfl
    omega
  rw [hlen, List.drop_left]

/-- Claim C3: pull returns exactly the events between the cursor and the
write position in push order, advances the cursor to the write position, and
every further pull with no intervening push returns the empty sequence. -/
theorem C3_pull_drains (ops : List (Op Nat)) (key c : Nat)
    (h : (run ops).cursors.lookup key = some c) :
    ((run ops).pull key).1 = (run ops).items.drop (c - (run ops).base_index)
    ∧ ((run ops).pull key).2.cursors.lookup key
        = some (((run ops).pull key).2.writePos)
    ∧ ∀ m : Nat,
        ((((fun t : RawEventQueue Nat => (t.pull key).2)^[m])
            ((run ops).pull key).2).pull key).1 = [] := by
  have hw := RawEventQueue.run_WF ops
  refine ⟨by simp [RawEventQueue.pull, h], ?_, ?_⟩
  · exact RawEventQueue.pull_cursor_after _ key c hw h
  · intro m
    exact RawEventQueue.pull_iter_empty key m _ (RawEventQueue.WF_pull _ hw key)
      (RawEventQueue.pull_cursor_after _ key c hw h)

/-- Witness for C3 at a concrete input: one listener, one push, then pulls. -/
theorem C3_pull_drains_w :
    (run [Op.listen, Op.push (7 : Nat)]).cursors.lookup 0 = some 0
    ∧ ((run [Op.listen, Op.push (7 : Nat)]).pull 0).1 = [7]
    ∧ ((((fun t : RawEventQueue Nat => (t.pull 0).2)^[2])
        ((run [Op.listen, Op.push (7 : Nat)]).pull 0).2).pull 0).1 = [] := by
  have h := C3_pull_drains [Op.listen, Op.push (7 : Nat)] 0 0 (by decide)
  exact ⟨by decide, h.1.trans (by decide), h.2.2 2⟩

/-- Claim C8: remove_listener with an unknown key leaves the state unchanged
and does not fail, and pull / pull_n with an unknown key return an empty
result and leave the state unchanged. -/
theorem C8_unknown_key_noop (ops : List (Op Nat)) (key : Nat)
    (h : (run ops).cursors.lookup key = none) :
    (run ops).remove_listener key = run ops
    ∧ (run ops).pull key = ([], run ops)
    ∧ ∀ n : Nat, (run ops).pull_n key n = ([], run ops) := by
  have hw := RawEventQueue.run_WF ops
  have hgc := RawEventQueue.gc_id (run ops) hw
  refine ⟨?_, ?_, ?_⟩
  · show RawEventQueue.gc _ = _
    rw [RawEventQueue.filter_of_lookup_none h]
    exact hgc
  · simp only [RawEventQueue.pull, h]
    rw [hgc]
  · intro n
    by_cases hn : n = 0
    · simp [RawEventQueue.pull_n, hn]
    · simp only [RawEventQueue.pull_n, if_neg hn, h]
      rw [hgc]

/-- Witness for C8 at a concrete input: the empty queue has no key 0. -/
theorem C8_unknown_key_noop_w :
    (run ([] : List (Op Nat))).cursors.lookup 0 = none
    ∧ (run ([] : List (Op Nat))).remove_listener 0 = run [] :=
  ⟨by decide, (C8_unknown_key_noop [] 0 (by decide)).1⟩

/-- State of `bidir_single::Queue`: the shared cell
`Rc<RefCell<(Option<Tp>, Option<Ts>)>>`.  `pslot` is the slot holding the
event the primary peer receives (field `.0`), `sslot` the slot holding the
event the secondary peer receives (field `.1`). -/
structure BidirState (Tp Ts : Type) where
  pslot : Option Tp
  sslot : Option Ts
deriving DecidableEq

/- Operations of the primary handle (`bidir_single::Queue`): its inbound
slot is `pslot`, its outbound slot is `sslot`. -/
namespace Primary

variable {Tp Ts R : Type}

/-- `bounce`: `if let Some(reply) = x.inq.take().and_then(f) { *x.outq = Some(reply); }` -/
def bounce (f : Tp → Option Ts) (s : BidirState Tp Ts) : BidirState Tp Ts :=
  match s.pslot.bind f with
  | some reply => { pslot := none, sslot := some reply }
  | none => { s with pslot := none }

/-- `retrieve_newest`: `x.inq.take()` -/
def retrieve_newest (s : BidirState Tp Ts) : Option Tp × BidirState Tp Ts :=
  (s.pslot, { s with pslot := none })

/-- `emit`: `*x.outq = Some(event.into_owned())` -/
def emit (v : Ts) (s : BidirState Tp Ts) : BidirState Tp Ts :=
  { s with sslot := some v }

/-- `peek`: `x.inq.take().into_iter().collect()` -/
def peek (s : BidirState Tp Ts) : List Tp × BidirState Tp Ts :=
  (s.pslot.toList, { s with pslot := none })

/-- `map`: `x.inq.take().iter().map(f).collect()` -/
def map (f : Tp → R) (s : BidirState Tp Ts) : List R × BidirState Tp Ts :=
  (s.pslot.toList.map f, { s with pslot := none })

/-- `with`: `f(&self.peek()[..])` -/
def with' (f : List Tp → R) (s : BidirState Tp Ts) : R × BidirState Tp Ts :=
  (f (peek s).1, (peek s).2)

/-- `peek_n`: `if n == 0 { Vec::new() } else { x.inq.take().into_iter().collect() }` -/
def peek_n (n : Nat) (s : BidirState Tp Ts) : List Tp × BidirState Tp Ts :=
  if n = 0 then ([], s)
  else (s.pslot.toList, { s with pslot := none })

/-- `map_n`: `if n == 0 { Vec::new() } else { x.inq.take().iter().map(f).collect() }` -/
def map_n (n : Nat) (f : Tp → R) (s : BidirState Tp Ts) : List R × BidirState Tp Ts :=
  if n = 0 then ([], s)
  else (s.pslot.toList.map f, { s with pslot := none })

/-- `with_n`: `f(&self.peek_n(n)[..])` -/
def with_n (n : Nat) (f : List Tp → R) (s : BidirState Tp Ts) : R × BidirState Tp Ts :=
  (f (peek_n n s).1, (peek_n n s).2)

end Primary

/- Operations of the secondary handle (`bidir_single::Secondary`): the same
cell with the slots swapped — its inbound slot is `sslot`, its outbound slot
is `pslot`. -/
namespace Secondary

variable {Tp Ts R : Type}

/-- `bounce` seen from the secondary side. -/
def bounce (f : Ts → Option Tp) (s : BidirState Tp Ts) : BidirState Tp Ts :=
  match s.sslot.bind f with
  | some reply => { sslot := none, pslot := some reply }
  | none => { s with sslot := none }

/-- `retrieve_newest` seen from the secondary side. -/
def retrieve_newest (s : BidirState Tp Ts) : Option Ts × BidirState Tp Ts :=
  (s.sslot, { s with sslot := none })

/-- `emit` seen from the secondary side. -/
def emit (v : Tp) (s : BidirState Tp Ts) : BidirState Tp Ts :=
  { s with pslot := some v }

/-- `peek` seen from the secondary side. -/
def peek (s : BidirState Tp Ts) : List Ts × BidirState Tp Ts :=
  (s.sslot.toList, { s with sslot := none })

/-- `map` seen from the secondary side. -/
def map (f : Ts → R) (s : BidirState Tp Ts) : List R × BidirState Tp Ts :=
  (s.sslot.toList.map f, { s with sslot := none })

/-- `with` seen from the secondary side. -/
def with' (f : List Ts → R) (s : BidirState Tp Ts) : R × BidirState Tp Ts :=
  (f (peek s).1, (peek s).2)

/-- `peek_n` seen from the secondary side. -/
def peek_n (n : Nat) (s : BidirState Tp Ts) : List Ts × BidirState Tp Ts :=
  if n = 0 then ([], s)
  else (s.sslot.toList, { s with sslot := none })

/-- `map_n` seen from the secondary side. -/
def map_n (n : Nat) (f : Ts → R) (s : BidirState Tp Ts) : List R × BidirState Tp Ts :=
  if n = 0 then ([], s)
  else (s.sslot.toList.map f, { s with sslot := none })

/-- `with_n` seen from the secondary side. -/
def with_n (n : Nat) (f : List Ts → R) (s : BidirState Tp Ts) : R × BidirState Tp Ts :=
  (f (peek_n n s).1, (peek_n n s).2)

end Secondary

/-- Claim C4: on either side, bounce takes and clears the inbound slot; when
the slot held `v` and `f v = some w`, `w` is written to the outbound slot
(overwriting it); when the inbound slot was empty or `f` yields nothing,
the outbound slot is unchanged; in all cases the inbound slot is empty
afterwards. -/
theorem C4_bounce_contract (Tp Ts : Type) (s : BidirState Tp Ts)
    (f : Tp → Option Ts) (g : Ts → Option Tp) :
    (Primary.bounce f s).pslot = none
    ∧ (∀ v w, s.pslot = some v → f v = some w → (Primary.bounce f s).sslot = some w)
    ∧ (s.pslot = none → (Primary.bounce f s).sslot = s.sslot)
    ∧ (∀ v, s.pslot = some v → f v = none → (Primary.bounce f s).sslot = s.sslot)
    ∧ (Secondary.bounce g s).sslot = none
    ∧ (∀ v w, s.sslot = some v → g v = some w → (Secondary.bounce g s).pslot = some w)
    ∧ (s.sslot = none → (Secondary.bounce g s).pslot = s.pslot)
    ∧ (∀ v, s.sslot = some v → g v = none → (Secondary.bounce g s).pslot = s.pslot) := by
  refine ⟨?_, ?_, ?_, ?_, ?_, ?_, ?_, ?_⟩
  · rcases h : s.pslot with - | v
    · simp [Primary.bounce, h]
    · rcases hf : f v with - | w <;> simp [Primary.bounce, h, hf]
  · intro v w hv hw
    simp [Primary.bounce, hv, hw]
  · intro hv
    simp [Primary.bounce, hv]
  · intro v hv hf
    simp [Primary.bounce, hv, hf]
  · rcases h : s.sslot with - | v
    · simp [Secondary.bounce, h]
    · rcases hg : g v with - | w <;> simp [Secondary.bounce, h, hg]
  · intro v w hv hw
    simp [Secondary.bounce, hv, hw]
  · intro hv
    simp [Secondary.bounce, hv]
  · intro v hv hg
    simp [Secondary.bounce, hv, hg]

/-- Witness for C4 at a concrete input, matching `test_bidir_evq`: the
inbound slot holds 4, `f` adds one, so 5 overwrites the pending outbound 9
and the inbound slot is cleared. -/
theorem C4_bounce_contract_w :
    ((⟨some 4, some 9⟩ : BidirState Nat Nat).pslot = some 4
      ∧ (fun x : Nat => some (x + 1)) 4 = some 5)
    ∧ (Primary.bounce (fun x : Nat => some (x + 1))
        (⟨some 4, some 9⟩ : BidirState Nat Nat)).sslot = some 5
    ∧ (Primary.bounce (fun x : Nat => some (x + 1))
        (⟨some 4, some 9⟩ : BidirState Nat Nat)).pslot = none :=
  ⟨⟨rfl, rfl⟩,
    (C4_bounce_contract Nat Nat ⟨some 4, some 9⟩ (fun x => some (x + 1))
      (fun _ => none)).2.1 4 5 rfl rfl,
    (C4_bounce_contract Nat Nat ⟨some 4, some 9⟩ (fun x => some (x + 1))
      (fun _ => none)).1⟩

/-- Claim C5: emit unconditionally overwrites the emitting side's outbound
slot: after two emits in one direction with no intervening read on the
receiving side, the state is as if only the second emit happened, the
receiver observes only the second value, and the first is lost. -/
theorem C5_emit_overwrites (Tp Ts : Type) (s : BidirState Tp Ts)
    (v1 v2 : Ts) (w1 w2 : Tp) :
    Primary.emit v2 (Primary.emit v1 s) = Primary.emit v2 s
    ∧ (Secondary.peek (Primary.emit v2 (Primary.emit v1 s))).1 = [v2]
    ∧ (Secondary.retrieve_newest (Primary.emit v2 (Primary.emit v1 s))).1 = some v2
    ∧ Secondary.emit w2 (Secondary.emit w1 s) = Secondary.emit w2 s
    ∧ (Primary.peek (Secondary.emit w2 (Secondary.emit w1 s))).1 = [w2]
    ∧ (Primary.retrieve_newest (Secondary.emit w2 (Secondary.emit w1 s))).1 = some w2 :=
  ⟨rfl, rfl, rfl, rfl, rfl, rfl⟩

/-- Claim C6: for every n > 0, peek_n, with_n and map_n return (or pass to
their function) at most one item, independently of how large n is. -/
theorem C6_capacity_one (Tp Ts Ra Rb : Type) (s : BidirState Tp Ts) (n : Nat)
    (hn : 0 < n) (f : Tp → Ra) (g : List Tp → Rb) (f2 : Ts → Ra) (g2 : List Ts → Rb) :
    (Primary.peek_n n s).1.length ≤ 1
    ∧ Primary.peek_n n s = Primary.peek_n 1 s
    ∧ (Primary.map_n n f s).1.length ≤ 1
    ∧ Primary.map_n n f s = Primary.map_n 1 f s
    ∧ Primary.with_n n g s = (g (Primary.peek_n n s).1, (Primary.peek_n n s).2)
    ∧ (Secondary.peek_n n s).1.length ≤ 1
    ∧ Secondary.peek_n n s = Secondary.peek_n 1 s
    ∧ (Secondary.map_n n f2 s).1.length ≤ 1
    ∧ Secondary.map_n n f2 s = Secondary.map_n 1 f2 s
    ∧ Secondary.with_n n g2 s = (g2 (Secondary.peek_n n s).1, (Secondary.peek_n n s).2) := by
  have hn' : n ≠ 0 := by omega
  refine ⟨?_, ?_, ?_, ?_, rfl, ?_, ?_, ?_, ?_, rfl⟩
  · rcases h : s.pslot with - | v <;> simp [Primary.peek_n, hn', h]
  · simp [Primary.peek_n, hn']
  · rcases h : s.pslot with - | v <;> simp [Primary.map_n, hn', h]
  · simp [Primary.map_n, hn']
  · rcases h : s.sslot with - | v <;> simp [Secondary.peek_n, hn', h]
  · simp [Secondary.peek_n, hn']
  · rcases h : s.sslot with - | v <;> simp [Secondary.map_n, hn', h]
  · simp [Secondary.map_n, hn']

/-- Witness for C6 at a concrete input: peek_n 3 on a full slot returns a
single item. -/
theorem C6_capacity_one_w :
    0 < 3
    ∧ (Primary.peek_n 3 (⟨some 4, none⟩ : BidirState Nat Nat)).1.length ≤ 1 :=
  ⟨by decide,
    (C6_capacity_one Nat Nat Nat Nat ⟨some 4, none⟩ 3 (by decide)
      (fun x => x) (fun l => l.length) (fun x => x) (fun l => l.length)).1⟩

/-- Claim C7: every bounded read called with n == 0 returns an empty result
and leaves the entire state unchanged: pull_n on the event queue, and
peek_n / map_n / with_n on either side of the bidirectional channel. -/
theorem C7_zero_is_noop (Tp Ts Ra Rb : Type) (q : RawEventQueue Nat) (key : Nat)
    (s : BidirState Tp Ts) (f : Tp → Ra) (g : List Tp → Rb)
    (f2 : Ts → Ra) (g2 : List Ts → Rb) :
    q.pull_n key 0 = ([], q)
    ∧ Primary.peek_n 0 s = ([], s)
    ∧ Primary.map_n 0 f s = ([], s)
    ∧ Primary.with_n 0 g s = (g [], s)
    ∧ Secondary.peek_n 0 s = ([], s)
    ∧ Secondary.map_n 0 f2 s = ([], s)
    ∧ Secondary.with_n 0 g2 s = (g2 [], s) :=
  ⟨rfl, rfl, rfl, rfl, rfl, rfl, rfl⟩

/-- Claim C10: peek, with and map (and their _n counterparts with n > 0)
take the inbound slot: afterwards the slot is empty and an immediately
repeated read with no intervening emit from the other side is empty. -/
theorem C10_reads_destructive (Tp Ts Ra Rb : Type) (s : BidirState Tp Ts) (n : Nat)
    (hn : 0 < n) (f : Tp → Ra) (g : List Tp → Rb) (f2 : Ts → Ra) (g2 : List Ts → Rb) :
    (Primary.peek s).2.pslot = none
    ∧ (Primary.peek (Primary.peek s).2).1 = []
    ∧ (Primary.map f s).2.pslot = none
    ∧ (Primary.map f (Primary.map f s).2).1 = []
    ∧ (Primary.with' g s).2.pslot = none
    ∧ (Primary.with' g (Primary.with' g s).2).1 = g []
    ∧ (Primary.peek_n n s).2.pslot = none
    ∧ (Primary.peek_n n (Primary.peek_n n s).2).1 = []
    ∧ (Primary.map_n n f s).2.pslot = none
    ∧ (Primary.with_n n g s).2.pslot = none
    ∧ (Secondary.peek s).2.sslot = none
    ∧ (Secondary.peek (Secondary.peek s).2).1 = []
    ∧ (Secondary.map f2 s).2.sslot = none
    ∧ (Secondary.with' g2 s).2.sslot = none
    ∧ (Secondary.peek_n n s).2.sslot = none
    ∧ (Secondary.map_n n f2 s).2.sslot = none := by
  have hn' : n ≠ 0 := by omega
  refine ⟨rfl, rfl, rfl, rfl, rfl, rfl, ?_, ?_, ?_, ?_, rfl, rfl, rfl, rfl, ?_, ?_⟩
  · simp [Primary.peek_n, hn']
  · simp [Primary.peek_n, hn']
  · simp [Primary.map_n, hn']
  · simp [Primary.with_n, Primary.peek_n, hn']
  · simp [Secondary.peek_n, hn']
  · simp [Secondary.map_n, hn']

/-- Witness for C10 at a concrete input: after one peek the slot is empty
and a second peek returns nothing. -/
theorem C10_reads_destructive_w :
    0 < 2
    ∧ (Primary.peek (⟨some 4, none⟩ : BidirState Nat Nat)).2.pslot = none
    ∧ (Primary.peek (Primary.peek (⟨some 4, none⟩ : BidirState Nat Nat)).2).1 = [] := by
  have h := C10_reads_destructive Nat Nat Nat Nat (⟨some 4, none⟩ : BidirState Nat Nat) 2
    (by decide) (fun x => x) (fun l => l.length) (fun x => x) (fun l => l.length)
  exact ⟨by decide, h.1, h.2.1⟩

/-- Modelled from the spec: the merge combinator (spec section 4.4) is not
among the provided sources.  A merge view is an ordered collection of
listener handles; draining takes each handle's own peek in collection order
and concatenates the per-handle results in that order.  Handles are
modelled as (queue, key) pairs over distinct queues, as in the bench
scenario. -/
def mergePeek {T : Type} (hs : List (RawEventQueue T × Nat)) : List T :=
  (hs.map (fun h => (h.1.pull h.2).1)).flatten

/-- Modelled from the spec: `MergeView.with(f)` invokes `f` once on the full
concatenation of the per-handle drains. -/
def mergeWith {T R : Type} (hs : List (RawEventQueue T × Nat)) (f : List T → R) : R :=
  f (mergePeek hs)

/-- Modelled from the spec: `MergeView.map(f)` applies `f` element-wise in
the same concatenation order. -/
def mergeMap {T R : Type} (hs : List (RawEventQueue T × Nat)) (f : T → R) : List R :=
  (mergePeek hs).map f

/-- The interleaved-emission scenario of the `event-merge-with` /
`event-merge-map` benches: two logs each with one listener, the four
emissions alternating between the logs in the order 0, 1, 2, 3. -/
def mergeScenario : RawEventQueue Nat × RawEventQueue Nat :=
  let s0 : RawEventQueue Nat × RawEventQueue Nat :=
    ((RawEventQueue.new.create_listener).2, (RawEventQueue.new.create_listener).2)
  let s1 := (s0.1.push 0, s0.2)
  let s2 := (s1.1, s1.2.push 1)
  let s3 := (s2.1.push 2, s2.2)
  (s3.1, s3.2.push 3)

/-- Claim C9: merged results are grouped by source handle position, then by
original emission order within each source, never interleaved by emission
time: with listener A having received [0, 2] and listener B [1, 3] from
interleaved emissions, both with and map observe [0, 2, 1, 3], not
[0, 1, 2, 3]. -/
theorem C9_merge_grouping :
    (∀ (q1 q2 : RawEventQueue Nat) (k1 k2 : Nat) (R : Type) (f : List Nat → R),
        mergeWith [(q1, k1), (q2, k2)] f = f ((q1.pull k1).1 ++ (q2.pull k2).1))
    ∧ mergeWith [(mergeScenario.1, 0), (mergeScenario.2, 0)] (fun l => l) = [0, 2, 1, 3]
    ∧ mergeMap [(mergeScenario.1, 0), (mergeScenario.2, 0)] (fun x => x) = [0, 2, 1, 3]
    ∧ mergeWith [(mergeScenario.1, 0), (mergeScenario.2, 0)] (fun l => l) ≠ [0, 1, 2, 3] := by
  refine ⟨?_, by decide, by decide, by decide⟩
  intro q1 q2 k1 k2 R f
  simp [mergeWith, mergePeek]

/-- The spec-modelled queue reproduces `test_event_cleanup` from
`src/event/src/nonrc.rs` step by step (listener keys 0 and 1 in creation
order), validating the model against the sources in the repository. -/
theorem model_matches_test_event_cleanup :
    (run ([.listen, .push 10] : List (Op Nat))).items.length = 1
    ∧ ((run ([.listen, .push 10, .listen, .push 20] : List (Op Nat))).pull 0).1 = [10, 20]
    ∧ ((run ([.listen, .push 10, .listen, .push 20, .pull 0] : List (Op Nat))).pull 1).1 = [20]
    ∧ ((run ([.listen, .push 10, .listen, .push 20, .pull 0, .pull 1] : List (Op Nat))).pull 1).1 = []
    ∧ ((run ([.listen, .push 10, .listen, .push 20, .pull 0, .pull 1, .pull 1] : List (Op Nat))).pull 1).1 = []
    ∧ (run ([.listen, .push 10, .listen, .push 20, .pull 0, .pull 1, .pull 1, .pull 1] : List (Op Nat))).items.length = 0
    ∧ ((run (([.listen, .push 10, .listen, .push 20, .pull 0, .pull 1, .pull 1, .pull 1] : List (Op Nat))
          ++ List.replicate 10 (Op.push 30))).pull 1).1 = List.replicate 10 30
    ∧ (run (([.listen, .push 10, .listen, .push 20, .pull 0, .pull 1, .pull 1, .pull 1] : List (Op Nat))
          ++ List.replicate 10 (Op.push 30) ++ [.pull 1, .remove 0])).items.length = 0 := by
  decide

/-- The channel model reproduces `test_bidir_evq` from
`src/event/src/bidir_single.rs` step by step. -/
theorem model_matches_test_bidir_evq :
    (Secondary.peek (Primary.emit 1 (⟨none, none⟩ : BidirState Nat Nat))).1 = [1]
    ∧ (Secondary.peek (Primary.emit 3 (Primary.emit 2
        (Secondary.peek (Primary.emit 1 (⟨none, none⟩ : BidirState Nat Nat))).2))).1 = [3]
    ∧ (Secondary.peek (Primary.bounce (fun x => some (x + 1))
        (Secondary.emit 6 (Secondary.emit 5 (Secondary.emit 4
          (Secondary.peek (Primary.emit 3 (Primary.emit 2
            (Secondary.peek (Primary.emit 1
              (⟨none, none⟩ : BidirState Nat Nat))).2))).2))))).1 = [7] := by
  decide

end Reclutch
